import Mathlib

/-
Verification development for the support-site scraper (scrape_support.py).

The scraper walks https://wordpress.com/support/guides/, discovers category
pages, collects article URLs from each category (following pagination),
extracts heading anchors from each article, and assembles a manifest.

The embedding below models BeautifulSoup query results abstractly: a fetched
page is a `Doc` whose fields hold exactly the results of the CSS queries the
code performs (one field per `select` / `select_one` / `find` call).  The
page fetcher is a function `String → Option Doc`; `none` models a fetch
that raises.  All string work of the code itself (url classification with
the two anchored regexes, fragment stripping, slug-to-title, get_text
whitespace handling) is translated faithfully at the character level.
-/

namespace WpSupport

-- ----------------------------
-- Config (scrape_support.py lines 20-35)
-- ----------------------------

def ROOT : String := "https://wordpress.com/support/"

def GUIDES : String := "https://wordpress.com/support/guides/"

/-- The reserved first segments excluded by the negative lookahead of
ARTICLE_RE (line 33 of the source). -/
def reservedSegs : List String :=
  ["category/", "tag/", "author/", "type/", "page/", "wp-json", "search", "embed/", "amp/"]

/-- Boolean test that the first list is a leading run of the second
(character-level helper used to express the anchored regexes). -/
def lPre : List Char → List Char → Bool
  | [], _ => true
  | _ :: _, [] => false
  | a :: as, b :: bs => decide (a = b) && lPre as bs

/-- The character class [^?#]* of ARTICLE_RE: no query, no fragment. -/
def noQueryFrag (l : List Char) : Bool :=
  l.all (fun c => decide (c ≠ '?' ∧ c ≠ '#'))

/-- The remainder of a url after the root, as the regexes see it. -/
def restOf (s : String) : List Char :=
  s.data.drop ROOT.data.length

/-- ARTICLE_RE (source lines 31-35):
^https://wordpress.com/support/(?!category/|tag/|author/|type/|page/|wp-json|search|embed/|amp/)[^?#]+/?$
The optional trailing slash is already inside the [^?#]+ class, so the
match set is: ROOT followed by a nonempty ?-free #-free remainder that
starts with none of the reserved segments. -/
def ARTICLE_RE_match (s : String) : Bool :=
  lPre ROOT.data s.data &&
    (decide (restOf s ≠ []) && noQueryFrag (restOf s) &&
      reservedSegs.all (fun p => !lPre p.data (restOf s)))

def CATPRE : String := ROOT ++ "category/"

/-- The part of a category url the segment class of CATEGORY_RE applies
to: everything up to the optional final slash. -/
def catBody (l : List Char) : List Char :=
  if l.getLast? = some '/' then l.dropLast else l

/-- The remainder part [^/?#]+/?$ of CATEGORY_RE: one nonempty slash-free
clean segment, optionally followed by a single trailing slash. -/
def catRest (l : List Char) : Bool :=
  decide (catBody l ≠ []) &&
    (catBody l).all (fun c => decide (c ≠ '/' ∧ c ≠ '?' ∧ c ≠ '#'))

/-- CATEGORY_RE (source line 28):
^https://wordpress.com/support/category/[^/?#]+/?$ -/
def CATEGORY_RE_match (s : String) : Bool :=
  lPre CATPRE.data s.data && catRest (s.data.drop CATPRE.data.length)

/-- Python (href or "").split("#")[0]: the characters before the first '#'. -/
def stripFrag (s : String) : String :=
  String.mk (s.data.takeWhile (fun c => c ≠ '#'))

-- ----------------------------
-- Abstract HTML documents
-- ----------------------------

/-- An <a> element as the code reads it: its href attribute (absent
attributes give none) and its visible text.  The listing code never reads
the text; it is carried to state that fact. -/
structure HtmlAnchor where
  href : Option String
  text : String
deriving DecidableEq, Repr

/-- A heading element returned by the select "h2[id], h3[id], h4[id]":
the attribute is present (possibly the empty string) and the element body
is the list of strings that get_text sees. -/
structure Heading where
  hid : String
  frags : List String
deriving DecidableEq, Repr

/-- One fetched page.  Each field is the result of one of the DOM queries
the code performs on a page (select, select_one, find), in source order:
the three tier-1 listing selectors, the tier-2 full anchor scan, the three
pagination probes, the id-bearing headings in document order, the first
h1 / h2 / title elements, and the scoped category-link query used on the
guides page. -/
structure Doc where
  entryTitleA : List HtmlAnchor
  articleEntryTitleA : List HtmlAnchor
  cardA : List HtmlAnchor
  allA : List HtmlAnchor
  relNextA : Option HtmlAnchor
  nextClassA : Option HtmlAnchor
  pagNextA : Option HtmlAnchor
  idHeadings : List Heading
  h1Frags : Option (List String)
  h2Frags : Option (List String)
  titleFrags : Option (List String)
  catA : List HtmlAnchor
deriving DecidableEq, Repr

-- ----------------------------
-- Text helpers (get_text, slug_to_title)
-- ----------------------------

/-- Join with a single space. -/
def joinSp : List String → String
  | [] => ""
  | [x] => x
  | x :: xs => x ++ " " ++ joinSp xs

/-- Python str.strip(): drop leading and trailing whitespace. -/
def pyStrip (s : String) : String :=
  String.mk (((s.data.dropWhile Char.isWhitespace).reverse.dropWhile
    Char.isWhitespace).reverse)

/-- get_text(" ", strip=True): each string stripped, empties dropped,
joined with one space. -/
def pyGetText (frags : List String) : String :=
  joinSp ((frags.map pyStrip).filter (fun t => t ≠ ""))

/-- extract_title_from_soup (source lines 61-68): first tag among h1, h2,
title that exists and has nonempty text. -/
def firstNonEmptyText : List (Option (List String)) → String
  | [] => ""
  | none :: rest => firstNonEmptyText rest
  | some f :: rest =>
      let t := pyGetText f
      if t = "" then firstNonEmptyText rest else t

def extract_title_from_soup (d : Doc) : String :=
  firstNonEmptyText [d.h1Frags, d.h2Frags, d.titleFrags]

/-- Python url.rstrip("/"): drop every trailing slash. -/
def rstripSlash (s : String) : String :=
  String.mk ((s.data.reverse.dropWhile (fun c => c = '/')).reverse)

/-- Python str.title() on ASCII: an alphabetic character following a
non-alphabetic one is uppercased, other alphabetic characters lowercased. -/
def pyTitleAux : Bool → List Char → List Char
  | _, [] => []
  | prevAlpha, c :: rest =>
      if c.isAlpha then
        (if prevAlpha then c.toLower else c.toUpper) :: pyTitleAux true rest
      else
        c :: pyTitleAux false rest

def pyTitle (s : String) : String :=
  String.mk (pyTitleAux false s.data)

/-- Python split("/") on the character list. -/
def splitSlash : List Char → List (List Char)
  | [] => [[]]
  | c :: rest =>
      if c = '/' then [] :: splitSlash rest
      else
        match splitSlash rest with
        | [] => [[c]]
        | h :: t => (c :: h) :: t

/-- slug_to_title (source lines 70-72):
url.rstrip("/").split("/")[-1].replace("-", " ").strip().title() -/
def slug_to_title (url : String) : String :=
  let seg := (splitSlash (rstripSlash url).data).getLastD []
  pyTitle (pyStrip (String.mk (seg.map (fun c => if c = '-' then ' ' else c))))

-- ----------------------------
-- Listing extraction (extract_pages, source lines 103-148)
-- ----------------------------

/-- The href the loop works on: (a.get("href") or "").split("#")[0]. -/
def hrefOf (a : HtmlAnchor) : String :=
  stripFrag (a.href.getD "")

/-- The shared body of both tiers (source lines 122-135): for each anchor,
strip the fragment from its href, and keep it when it matches ARTICLE_RE
and was not seen; the Bool is the found_any flag, set on every append. -/
def scanAnchors : List HtmlAnchor → List String → List String → Bool →
    List String × List String × Bool
  | [], pages, seen, found => (pages, seen, found)
  | a :: rest, pages, seen, found =>
      if ARTICLE_RE_match (hrefOf a) = true ∧ hrefOf a ∉ seen then
        scanAnchors rest (pages ++ [hrefOf a]) (seen ++ [hrefOf a]) true
      else
        scanAnchors rest pages seen found

/-- The three tier-1 selectors in source order (lines 116-120), iterated
anchor by anchor. -/
def tier1Anchors (d : Doc) : List HtmlAnchor :=
  d.entryTitleA ++ d.articleEntryTitleA ++ d.cardA

/-- Replace the visible text of every anchor of a page by g, leaving the
hrefs untouched (used to state that the listing code never reads text). -/
def retext (g : HtmlAnchor → String) (d : Doc) : Doc :=
  { d with
    entryTitleA := d.entryTitleA.map (fun a => { href := a.href, text := g a }),
    articleEntryTitleA := d.articleEntryTitleA.map (fun a => { href := a.href, text := g a }),
    cardA := d.cardA.map (fun a => { href := a.href, text := g a }),
    allA := d.allA.map (fun a => { href := a.href, text := g a }) }

/-- One listing page (loop body, lines 115-135): tier 1 over the title
selectors; the full-anchor tier 2 scan only when tier 1 appended nothing. -/
def processDoc (d : Doc) (pages seen : List String) : List String × List String :=
  let r1 := scanAnchors (tier1Anchors d) pages seen false
  if r1.2.2 = true then (r1.1, r1.2.1)
  else
    let r2 := scanAnchors d.allA r1.1 r1.2.1 false
    (r2.1, r2.2.1)

/-- Pagination probe (lines 138-142): a[rel=next], else a.next, else the
.pagination / .nav-links fallback. -/
def nextAnchorOf (d : Doc) : Option HtmlAnchor :=
  match d.relNextA with
  | some a => some a
  | none =>
      match d.nextClassA with
      | some a => some a
      | none => d.pagNextA

/-- Line 143: the next url, none when no anchor was found or it has no href. -/
def nextHrefOf (d : Doc) : Option String :=
  match nextAnchorOf d with
  | some a => a.href
  | none => none

/-- The while loop of extract_pages.  Fuel bounds the pagination chain
(the Python loop can run unboundedly on an ever-fresh next chain); when
fuel runs out the pages and trace accumulated so far are returned.  The
result also carries the list of fetched urls, in fetch order; `none`
models the exception a failed get raises (it is not caught here). -/
def extract_pages_aux (fetch : String → Option Doc) :
    Nat → Option String → List String → List String → List String → List String →
    Option (List String × List String)
  | 0, _, _, _, pages, fetched => some (pages, fetched)
  | Nat.succ n, nextUrl, seenPag, seenPages, pages, fetched =>
      match nextUrl with
      | none => some (pages, fetched)
      | some u =>
          if u = "" ∨ u ∈ seenPag then some (pages, fetched)
          else
            match fetch u with
            | none => none
            | some d =>
                let r := processDoc d pages seenPages
                extract_pages_aux fetch n (nextHrefOf d) (seenPag ++ [u]) r.2 r.1
                  (fetched ++ [u])

/-- extract_pages (lines 103-148): article urls of one category, following
pagination, plus the trace of listing urls fetched. -/
def extract_pages (fetch : String → Option Doc) (fuel : Nat) (category_url : String) :
    Option (List String × List String) :=
  extract_pages_aux fetch fuel (some category_url) [] [] [] []

-- ----------------------------
-- Anchor extraction (extract_anchors, source lines 150-177)
-- ----------------------------

/-- An output anchor entry of the manifest: a title and a deep-link url. -/
structure Anchor where
  title : String
  url : String
deriving DecidableEq, Repr

/-- Lines 162-167: headings with a falsy id are skipped; the title falls
back to "#id" when the visible text is empty. -/
def anchorsOf (article_url : String) : List Heading → List Anchor
  | [] => []
  | h :: rest =>
      if h.hid = "" then anchorsOf article_url rest
      else
        let t := pyGetText h.frags
        { title := if t = "" then "#" ++ h.hid else t,
          url := article_url ++ "#" ++ h.hid } :: anchorsOf article_url rest

/-- Lines 170-174: de-duplicate by url, keeping the first occurrence. -/
def dedupByUrl : List Anchor → List String → List Anchor
  | [], _ => []
  | a :: rest, seen =>
      if a.url ∈ seen then dedupByUrl rest seen
      else a :: dedupByUrl rest (seen ++ [a.url])

/-- extract_anchors (lines 150-177).  A failed fetch is caught inside and
degrades to no anchors plus the slug-derived title. -/
def extract_anchors (fetch : String → Option Doc) (article_url : String) :
    List Anchor × String :=
  match fetch article_url with
  | none => ([], slug_to_title article_url)
  | some d =>
      let out := dedupByUrl (anchorsOf article_url d.idHeadings) []
      let t := extract_title_from_soup d
      (out, if t = "" then slug_to_title article_url else t)

-- ----------------------------
-- Category discovery (extract_categories, source lines 74-101)
-- ----------------------------

/-- Lines 83-91: hrefs of the scoped category-link query, fragment
stripped, kept when CATEGORY_RE matches. -/
def catLinksOf : List HtmlAnchor → List String
  | [] => []
  | a :: rest =>
      let href := stripFrag (a.href.getD "")
      if CATEGORY_RE_match href = true then href :: catLinksOf rest
      else catLinksOf rest

/-- Lines 94-98: de-duplicate keeping order. -/
def dedupKeep : List String → List String → List String
  | [], _ => []
  | u :: rest, seen =>
      if u ∈ seen then dedupKeep rest seen
      else u :: dedupKeep rest (seen ++ [u])

/-- extract_categories: raises (none) when the guides fetch fails; that
call is not wrapped in any try. -/
def extract_categories (fetch : String → Option Doc) : Option (List String) :=
  match fetch GUIDES with
  | none => none
  | some d => some (dedupKeep (catLinksOf d.catA) [])

-- ----------------------------
-- Manifest (build_manifest, source lines 182-214)
-- ----------------------------

structure PageEntry where
  title : String
  url : String
  anchors : List Anchor
deriving DecidableEq, Repr

structure SectionEntry where
  sectionTitle : String
  url : String
  pages : List PageEntry
deriving DecidableEq, Repr

structure Manifest where
  version : String
  source : String
  sections : List SectionEntry
deriving DecidableEq, Repr

/-- Lines 193-200.  The per-article try only guards unexpected errors; in
this model extract_anchors is total (its own fetch failure is handled
inside it, lines 152-156), so every listed url yields a page entry. -/
def pageOf (fetch : String → Option Doc) (p : String) : PageEntry :=
  let r := extract_anchors fetch p
  { title := r.2, url := p, anchors := r.1 }

/-- The body of the per-category try (lines 185-203): a failing category
fetch, or a failing fetch anywhere in the pagination walk, raises, is
caught, and skips the category. -/
def buildSection (fetch : String → Option Doc) (fuel : Nat) (cat_url : String) :
    Option SectionEntry :=
  match fetch cat_url with
  | none => none
  | some catDoc =>
      let st := extract_title_from_soup catDoc
      let section_title := if st = "" then slug_to_title cat_url else st
      match extract_pages fetch fuel cat_url with
      | none => none
      | some r =>
          some { sectionTitle := section_title, url := cat_url,
                 pages := r.1.map (pageOf fetch) }

/-- build_manifest (lines 182-214).  `now` stands for the strftime call;
category discovery failure propagates (none), per-category failures are
skipped by the try at line 185. -/
def build_manifest (fetch : String → Option Doc) (fuel : Nat) (now : String) :
    Option Manifest :=
  match extract_categories fetch with
  | none => none
  | some cats =>
      some { version := now, source := ROOT,
             sections := cats.filterMap (buildSection fetch fuel) }

-- ----------------------------
-- Concrete fixtures (used by the counterexamples and witnesses below)
-- ----------------------------

def emptyDoc : Doc :=
  { entryTitleA := [], articleEntryTitleA := [], cardA := [], allA := [],
    relNextA := none, nextClassA := none, pagNextA := none, idHeadings := [],
    h1Frags := none, h2Frags := none, titleFrags := none, catA := [] }

def catU1 : String := ROOT ++ "category/get-started/"
def catU2 : String := ROOT ++ "category/broken/"
def catP2 : String := ROOT ++ "category/get-started/page/2/"
def artU1 : String := ROOT ++ "intro/"
def artU2 : String := ROOT ++ "missing/"
def artU3 : String := ROOT ++ "setup/"

def guidesDoc : Doc :=
  { emptyDoc with
    catA := [{ href := some catU1, text := "Get started" },
             { href := some catU2, text := "Broken" },
             { href := some catU1, text := "Get started again" }] }

def listDoc1 : Doc :=
  { emptyDoc with
    entryTitleA := [{ href := some artU1, text := "Intro" },
                    { href := some artU2, text := "Missing" }],
    relNextA := some { href := some catP2, text := "Next" },
    h1Frags := some [" Get Started "] }

def listDoc2 : Doc :=
  { emptyDoc with
    entryTitleA := [{ href := some artU1, text := "Intro again" },
                    { href := some artU3, text := "Setup" }] }

def artDoc1 : Doc :=
  { emptyDoc with
    idHeadings := [{ hid := "install", frags := [" Install the plugin "] },
                   { hid := "install", frags := ["Install dup"] },
                   { hid := "", frags := ["no id"] },
                   { hid := "usage", frags := ["", "Usage"] }],
    h1Frags := some ["Intro to WordPress"] }

/-- A small site: one good category with two listing pages, one category
whose fetch fails, one good article, two articles whose fetch fails. -/
def fx : String → Option Doc := fun s =>
  if s = GUIDES then some guidesDoc
  else if s = catU1 then some listDoc1
  else if s = catP2 then some listDoc2
  else if s = artU1 then some artDoc1
  else none

/-- The section the fixture site produces for its good category. -/
def secFx : SectionEntry :=
  { sectionTitle := "Get Started", url := catU1,
    pages := [{ title := "Intro to WordPress", url := artU1,
                anchors := [{ title := "Install the plugin", url := artU1 ++ "#install" },
                            { title := "Usage", url := artU1 ++ "#usage" }] },
              { title := "Missing", url := artU2, anchors := [] },
              { title := "Setup", url := artU3, anchors := [] }] }

/-- The manifest the fixture site produces: the failing category broken
is omitted entirely. -/
def mFx : Manifest :=
  { version := "t0", source := ROOT, sections := [secFx] }

-- Fixtures for the hub-category scenario of claim C1.
def hubU : String := ROOT ++ "category/design/"
def subU : String := ROOT ++ "category/themes/"
def artA : String := ROOT ++ "direct-article/"
def artB : String := ROOT ++ "sub-article/"

def hubDoc : Doc :=
  { emptyDoc with
    allA := [{ href := some subU, text := "Themes" },
             { href := some artA, text := "A direct article" }] }

def subDoc : Doc :=
  { emptyDoc with allA := [{ href := some artB, text := "Sub article" }] }

def fetchC1 : String → Option Doc := fun s =>
  if s = hubU then some hubDoc
  else if s = subU then some subDoc
  else none

-- Fixture for claim C3: one plain link whose text is a boilerplate phrase.
def contactU : String := ROOT ++ "contact/"

def doc3 : Doc :=
  { emptyDoc with allA := [{ href := some contactU, text := "contact us" }] }

-- Fixture for claim C7: a heading whose id attribute is the empty string.
def art7 : String := ROOT ++ "plain-article/"

def doc7 : Doc :=
  { emptyDoc with idHeadings := [{ hid := "", frags := ["Intro"] }] }

def fetch7 : String → Option Doc := fun s =>
  if s = art7 then some doc7 else none

/-- Modelled from the spec (the wording of claim C7): every heading at
levels 2-4 that carries an id attribute is mapped to an anchor, whatever
the id value, de-duplicated by url. -/
def claimedAnchorsC7 (article_url : String) (d : Doc) : List Anchor :=
  dedupByUrl
    (d.idHeadings.map (fun h =>
      let t := pyGetText h.frags
      { title := if t = "" then "#" ++ h.hid else t,
        url := article_url ++ "#" ++ h.hid })) []

-- ----------------------------
-- Helper lemmas
-- ----------------------------

theorem lPre_iff (p : List Char) : ∀ l, lPre p l = true ↔ ∃ t, l = p ++ t := by
  induction p with
  | nil =>
      intro l
      simp [lPre]
  | cons a as ih =>
      intro l
      cases l with
      | nil => simp [lPre]
      | cons b bs =>
          simp only [lPre, Bool.and_eq_true, decide_eq_true_eq, List.cons_append,
            List.cons.injEq, ih]
          constructor
          · rintro ⟨rfl, t, rfl⟩
            exact ⟨t, rfl, rfl⟩
          · rintro ⟨t, rfl, rfl⟩
            exact ⟨rfl, t, rfl⟩

theorem strPre_iff (p s : String) : lPre p.data s.data = true ↔ ∃ t : String, s = p ++ t := by
  rw [lPre_iff]
  constructor
  · rintro ⟨t, ht⟩
    refine ⟨String.mk t, String.ext_iff.2 ?_⟩
    rw [String.data_append]
    exact ht
  · rintro ⟨t, rfl⟩
    exact ⟨t.data, by rw [String.data_append]⟩

theorem str_ne_nil (t : String) : t ≠ "" ↔ t.data ≠ [] := by
  constructor
  · intro h hd
    exact h (String.ext_iff.2 hd)
  · intro h ht
    exact h (by rw [ht])

theorem noQueryFrag_iff (l : List Char) :
    noQueryFrag l = true ↔ ∀ c ∈ l, c ≠ '?' ∧ c ≠ '#' := by
  simp [noQueryFrag, List.all_eq_true]

theorem restOf_append (t : String) : restOf (ROOT ++ t) = t.data := by
  simp [restOf, String.data_append, List.drop_left]

-- ----------------------------
-- Claim theorems
-- ----------------------------

/-- C5: the article classifier accepts exactly the urls under the root
whose remainder is nonempty, contains no query or fragment character, and
starts with none of the reserved segments; in particular a tag url is
neither article nor category and a plain slug url is an article. -/
theorem c5_theorem :
    (∀ s : String, ARTICLE_RE_match s = true ↔
      ∃ t : String, s = ROOT ++ t ∧ t ≠ "" ∧
        (∀ c ∈ t.data, c ≠ '?' ∧ c ≠ '#') ∧
        (∀ p ∈ reservedSegs, ∀ r : String, t ≠ p ++ r)) ∧
    ARTICLE_RE_match "https://wordpress.com/support/tag/foo/" = false ∧
    CATEGORY_RE_match "https://wordpress.com/support/tag/foo/" = false ∧
    ARTICLE_RE_match "https://wordpress.com/support/themes-overview/" = true := by
  refine ⟨?_, by decide, by decide, by decide⟩
  intro s
  simp only [ARTICLE_RE_match, Bool.and_eq_true, decide_eq_true_eq,
    List.all_eq_true, Bool.not_eq_true']
  constructor
  · rintro ⟨hpre, ⟨hne, hqf⟩, hres⟩
    obtain ⟨t, rfl⟩ := (strPre_iff ROOT s).1 hpre
    rw [restOf_append] at hne hqf hres
    refine ⟨t, rfl, (str_ne_nil t).2 hne, (noQueryFrag_iff t.data).1 hqf, ?_⟩
    intro p hp r ht
    have : lPre p.data t.data = true := by
      rw [lPre_iff]
      exact ⟨r.data, by rw [ht, String.data_append]⟩
    rw [hres p hp] at this
    exact Bool.false_ne_true this
  · rintro ⟨t, rfl, hne, hqf, hres⟩
    refine ⟨(strPre_iff ROOT (ROOT ++ t)).2 ⟨t, rfl⟩, ⟨?_, ?_⟩, ?_⟩
    · rw [restOf_append]
      exact (str_ne_nil t).1 hne
    · rw [restOf_append]
      exact (noQueryFrag_iff t.data).2 hqf
    · intro p hp
      rw [restOf_append]
      cases hcase : lPre p.data t.data with
      | false => rfl
      | true =>
          obtain ⟨r, hr⟩ := (lPre_iff p.data t.data).1 hcase
          exfalso
          refine hres p hp (String.mk r) ?_
          apply String.ext_iff.2
          rw [String.data_append]
          exact hr

/-- C2 counterexample: the nested subcategory url the spec declares valid
is rejected by CATEGORY_RE, which allows a single path segment only. -/
theorem c2_counterexample :
    CATEGORY_RE_match "https://wordpress.com/support/category/design/themes/" = false := by
  decide

/-- C2 (amended): the category classifier accepts exactly one path
segment after category/ — any url root/category/seg (with or without a
trailing slash) with seg nonempty and free of the characters /, ? and #
is accepted, while every nested url root/category/a/b/ is rejected. -/
theorem c2_theorem :
    (∀ seg : String, seg ≠ "" → (∀ c ∈ seg.data, c ≠ '/' ∧ c ≠ '?' ∧ c ≠ '#') →
      CATEGORY_RE_match (ROOT ++ "category/" ++ seg ++ "/") = true ∧
      CATEGORY_RE_match (ROOT ++ "category/" ++ seg) = true) ∧
    (∀ a b : String, CATEGORY_RE_match (ROOT ++ "category/" ++ a ++ "/" ++ b ++ "/") = false) := by
  constructor
  · intro seg hne hchars
    have hsegne : seg.data ≠ [] := (str_ne_nil seg).1 hne
    constructor
    · have hd : (ROOT ++ "category/" ++ seg ++ "/").data
          = CATPRE.data ++ (seg.data ++ ['/']) := by
        simp [CATPRE, String.data_append,
          show ("/" : String).data = ['/'] from rfl]
      simp only [CATEGORY_RE_match]
      rw [hd, List.drop_left, Bool.and_eq_true]
      refine ⟨(lPre_iff _ _).2 ⟨_, rfl⟩, ?_⟩
      have hbody : catBody (seg.data ++ ['/']) = seg.data := by
        unfold catBody
        rw [List.getLast?_concat, if_pos rfl, List.dropLast_concat]
      simp only [catRest, hbody]
      rw [Bool.and_eq_true]
      refine ⟨by simp [hsegne], ?_⟩
      rw [List.all_eq_true]
      intro c hc
      exact decide_eq_true (hchars c hc)
    · have hd : (ROOT ++ "category/" ++ seg).data = CATPRE.data ++ seg.data := by
        simp [CATPRE, String.data_append]
      simp only [CATEGORY_RE_match]
      rw [hd, List.drop_left, Bool.and_eq_true]
      refine ⟨(lPre_iff _ _).2 ⟨_, rfl⟩, ?_⟩
      rcases List.eq_nil_or_concat seg.data with h | ⟨L, b, hLb⟩
      · exact absurd h hsegne
      · rw [List.concat_eq_append] at hLb
        have hbmem : b ∈ seg.data := by
          rw [hLb]
          exact List.mem_append_right _ (List.mem_cons_self _ _)
        have hbne : ¬(seg.data.getLast? = some '/') := by
          rw [hLb, List.getLast?_concat]
          intro h
          exact (hchars b hbmem).1 (Option.some.inj h)
        have hbody : catBody seg.data = seg.data := by
          unfold catBody
          rw [if_neg hbne]
        simp only [catRest, hbody]
        rw [Bool.and_eq_true]
        refine ⟨by simp [hsegne], ?_⟩
        rw [List.all_eq_true]
        intro c hc
        exact decide_eq_true (hchars c hc)
  · intro a b
    have hd : (ROOT ++ "category/" ++ a ++ "/" ++ b ++ "/").data
        = CATPRE.data ++ ((a.data ++ '/' :: b.data) ++ ['/']) := by
      simp [CATPRE, String.data_append,
        show ("/" : String).data = ['/'] from rfl]
    simp only [CATEGORY_RE_match]
    rw [hd, List.drop_left]
    have hbody : catBody ((a.data ++ '/' :: b.data) ++ ['/']) = a.data ++ '/' :: b.data := by
      unfold catBody
      rw [List.getLast?_concat, if_pos rfl, List.dropLast_concat]
    have hall : (a.data ++ '/' :: b.data).all
        (fun c => decide (c ≠ '/' ∧ c ≠ '?' ∧ c ≠ '#')) = false := by
      rw [Bool.eq_false_iff]
      intro h
      have := List.all_eq_true.1 h '/' (List.mem_append_right _ (List.mem_cons_self _ _))
      simp at this
    simp only [catRest, hbody]
    rw [hall, Bool.and_false, Bool.and_false]

/-- C2 witness: the single-segment category url design is accepted in both
forms. -/
theorem c2_witness :
    CATEGORY_RE_match (ROOT ++ "category/" ++ "design" ++ "/") = true ∧
    CATEGORY_RE_match (ROOT ++ "category/" ++ "design") = true :=
  c2_theorem.1 "design" (by decide) (by decide)

theorem scan_pages_ext (as : List HtmlAnchor) :
    ∀ pages seen found, ∃ q, (scanAnchors as pages seen found).1 = pages ++ q := by
  induction as with
  | nil =>
      intro pages seen found
      exact ⟨[], by simp [scanAnchors]⟩
  | cons a rest ih =>
      intro pages seen found
      simp only [scanAnchors]
      split
      · obtain ⟨q, hq⟩ := ih (pages ++ [hrefOf a]) (seen ++ [hrefOf a]) true
        exact ⟨[hrefOf a] ++ q, by rw [hq, List.append_assoc]⟩
      · exact ih pages seen found

theorem scan_flag_stays (as : List HtmlAnchor) :
    ∀ pages seen, (scanAnchors as pages seen true).2.2 = true := by
  induction as with
  | nil =>
      intro pages seen
      simp [scanAnchors]
  | cons a rest ih =>
      intro pages seen
      simp only [scanAnchors]
      split
      · exact ih _ _
      · exact ih _ _

theorem scan_flag_false_iff (as : List HtmlAnchor) :
    ∀ pages seen, (scanAnchors as pages seen false).2.2 = false ↔
      (scanAnchors as pages seen false).1 = pages := by
  induction as with
  | nil =>
      intro pages seen
      simp [scanAnchors]
  | cons a rest ih =>
      intro pages seen
      simp only [scanAnchors]
      split
      · constructor
        · intro hf
          rw [scan_flag_stays] at hf
          exact absurd hf (by decide)
        · intro hp
          obtain ⟨q, hq⟩ := scan_pages_ext rest (pages ++ [hrefOf a]) (seen ++ [hrefOf a]) true
          rw [hq, List.append_assoc] at hp
          have := List.append_right_eq_self.1 hp
          simp at this
      · exact ih pages seen

theorem scan_inv (as : List HtmlAnchor) :
    ∀ pages seen found, pages.Nodup → (∀ x ∈ pages, x ∈ seen) →
      (scanAnchors as pages seen found).1.Nodup ∧
        ∀ x ∈ (scanAnchors as pages seen found).1, x ∈ (scanAnchors as pages seen found).2.1 := by
  induction as with
  | nil =>
      intro pages seen found hnd hsub
      simpa [scanAnchors] using ⟨hnd, hsub⟩
  | cons a rest ih =>
      intro pages seen found hnd hsub
      simp only [scanAnchors]
      split
      · rename_i hcond
        apply ih
        · rw [List.nodup_append]
          refine ⟨hnd, List.nodup_singleton _, ?_⟩
          intro x hx hx1
          rw [List.mem_singleton] at hx1
          subst hx1
          exact hcond.2 (hsub _ hx)
        · intro x hx
          rcases List.mem_append.1 hx with h | h
          · exact List.mem_append_left _ (hsub x h)
          · exact List.mem_append_right _ h
      · exact ih pages seen found hnd hsub

theorem scan_article (as : List HtmlAnchor) :
    ∀ pages seen found, (∀ x ∈ pages, ARTICLE_RE_match x = true) →
      ∀ x ∈ (scanAnchors as pages seen found).1, ARTICLE_RE_match x = true := by
  induction as with
  | nil =>
      intro pages seen found hp
      simpa [scanAnchors] using hp
  | cons a rest ih =>
      intro pages seen found hp
      simp only [scanAnchors]
      split
      · rename_i hcond
        apply ih
        intro x hx
        rcases List.mem_append.1 hx with h | h
        · exact hp x h
        · rw [List.mem_singleton] at h
          subst h
          exact hcond.1
      · exact ih pages seen found hp

theorem scan_href_only (as : List HtmlAnchor) :
    ∀ (bs : List HtmlAnchor), as.map HtmlAnchor.href = bs.map HtmlAnchor.href →
      ∀ pages seen found, scanAnchors as pages seen found = scanAnchors bs pages seen found := by
  induction as with
  | nil =>
      intro bs hb pages seen found
      cases bs with
      | nil => rfl
      | cons b bt => simp at hb
  | cons a rest ih =>
      intro bs hb pages seen found
      cases bs with
      | nil => simp at hb
      | cons b bt =>
          simp only [List.map_cons, List.cons.injEq] at hb
          have hhref : hrefOf a = hrefOf b := by
            simp [hrefOf, hb.1]
          simp only [scanAnchors, hhref]
          split
          · exact ih bt hb.2 _ _ _
          · exact ih bt hb.2 _ _ _

/-- C3 counterexample: the tier 2 result of a page whose single plain
link carries the boilerplate text contact us still contains that link;
no text blocklist exists in the code. -/
theorem c3_counterexample :
    tier1Anchors doc3 = [] ∧
    doc3.allA = [{ href := some contactU, text := "contact us" }] ∧
    (processDoc doc3 [] []).1 = [contactU] := by
  refine ⟨rfl, rfl, by decide⟩

/-- C3 (amended): in the tier 2 fallback an href is kept exactly when it
classifies as an article url and has not been seen; the visible link text
is never consulted, so the whole listing computation is invariant under
an arbitrary rewriting of every anchor text of the page. -/
theorem c3_theorem :
    ∀ (g : HtmlAnchor → String) (d : Doc) (pages seen : List String),
      processDoc (retext g d) pages seen = processDoc d pages seen := by
  intro g d pages seen
  have hmap : ∀ as : List HtmlAnchor,
      (as.map (fun a => ({ href := a.href, text := g a } : HtmlAnchor))).map HtmlAnchor.href
        = as.map HtmlAnchor.href := by
    intro as
    induction as with
    | nil => rfl
    | cons a t iht => simp [iht]
  have h1 : tier1Anchors (retext g d)
      = (tier1Anchors d).map (fun a => ({ href := a.href, text := g a } : HtmlAnchor)) := by
    simp [tier1Anchors, retext, List.map_append]
  have h2 : (retext g d).allA
      = d.allA.map (fun a => ({ href := a.href, text := g a } : HtmlAnchor)) := rfl
  simp only [processDoc, h1, h2]
  rw [scan_href_only _ _ (hmap (tier1Anchors d)), scan_href_only _ _ (hmap d.allA)]

/-- C4: the tier 2 fallback runs exactly when tier 1 contributed no
article url on the page (the found_any flag is false iff tier 1 left the
page list unchanged); when tier 1 found something the page result is the
tier 1 result untouched, and on a page with no title-wrapper anchors the
result is exactly the tier 2 scan of all plain links. -/
theorem c4_theorem :
    ∀ (d : Doc) (pages seen : List String),
      ((scanAnchors (tier1Anchors d) pages seen false).2.2 = false ↔
        (scanAnchors (tier1Anchors d) pages seen false).1 = pages) ∧
      ((scanAnchors (tier1Anchors d) pages seen false).2.2 = true →
        processDoc d pages seen = ((scanAnchors (tier1Anchors d) pages seen false).1,
          (scanAnchors (tier1Anchors d) pages seen false).2.1)) ∧
      (tier1Anchors d = [] →
        processDoc d pages seen = ((scanAnchors d.allA pages seen false).1,
          (scanAnchors d.allA pages seen false).2.1)) := by
  intro d pages seen
  refine ⟨scan_flag_false_iff _ _ _, ?_, ?_⟩
  · intro hf
    simp only [processDoc]
    rw [if_pos hf]
  · intro h0
    simp only [processDoc, h0]
    simp [scanAnchors]

/-- C4 witness: on a page with no title-wrapper anchors the tier 2 branch
is taken, and on a page where tier 1 finds articles it is not. -/
theorem c4_witness :
    processDoc doc3 [] [] = ((scanAnchors doc3.allA [] [] false).1,
      (scanAnchors doc3.allA [] [] false).2.1) ∧
    processDoc listDoc1 [] [] = ((scanAnchors (tier1Anchors listDoc1) [] [] false).1,
      (scanAnchors (tier1Anchors listDoc1) [] [] false).2.1) :=
  ⟨(c4_theorem doc3 [] []).2.2 rfl, (c4_theorem listDoc1 [] []).2.1 (by decide)⟩

theorem article_not_category (s : String) :
    ARTICLE_RE_match s = true → CATEGORY_RE_match s = false := by
  intro h
  cases hc : CATEGORY_RE_match s with
  | false => rfl
  | true =>
      exfalso
      simp only [CATEGORY_RE_match, Bool.and_eq_true] at hc
      obtain ⟨tl, htl⟩ := (lPre_iff CATPRE.data s.data).1 hc.1
      have hcat : CATPRE.data = ROOT.data ++ ("category/" : String).data :=
        String.data_append ROOT "category/"
      have hrest : restOf s = ("category/" : String).data ++ tl := by
        rw [restOf, htl, hcat, List.append_assoc, List.drop_left]
      simp only [ARTICLE_RE_match, Bool.and_eq_true, List.all_eq_true,
        Bool.not_eq_true'] at h
      have hres := h.2.2 "category/" (by simp [reservedSegs])
      rw [hrest] at hres
      have : lPre ("category/" : String).data (("category/" : String).data ++ tl) = true :=
        (lPre_iff _ _).2 ⟨tl, rfl⟩
      rw [hres] at this
      exact Bool.false_ne_true this

theorem processDoc_article (d : Doc) (pages seen : List String)
    (hp : ∀ x ∈ pages, ARTICLE_RE_match x = true) :
    ∀ x ∈ (processDoc d pages seen).1, ARTICLE_RE_match x = true := by
  intro x hx
  simp only [processDoc] at hx
  split at hx
  · exact scan_article _ _ _ _ hp x hx
  · exact scan_article d.allA _ _ _
      (fun y hy => scan_article (tier1Anchors d) pages seen false hp y hy) x hx

theorem processDoc_inv (d : Doc) (pages seen : List String)
    (hnd : pages.Nodup) (hsub : ∀ x ∈ pages, x ∈ seen) :
    (processDoc d pages seen).1.Nodup ∧
      ∀ x ∈ (processDoc d pages seen).1, x ∈ (processDoc d pages seen).2 := by
  simp only [processDoc]
  split
  · exact scan_inv _ _ _ _ hnd hsub
  · exact scan_inv _ _ _ _ (scan_inv _ _ _ _ hnd hsub).1 (scan_inv _ _ _ _ hnd hsub).2

theorem aux_article (fetch : String → Option Doc) :
    ∀ (n : Nat) (nu : Option String) (seenPag seenPages pages fetched : List String),
      (∀ x ∈ pages, ARTICLE_RE_match x = true) →
      ∀ res, extract_pages_aux fetch n nu seenPag seenPages pages fetched = some res →
        ∀ p ∈ res.1, ARTICLE_RE_match p = true := by
  intro n
  induction n with
  | zero =>
      intro nu seenPag seenPages pages fetched hp res hres
      simp only [extract_pages_aux] at hres
      have := Option.some.inj hres
      subst this
      simpa using hp
  | succ n ih =>
      intro nu seenPag seenPages pages fetched hp res hres
      cases nu with
      | none =>
          simp only [extract_pages_aux] at hres
          have := Option.some.inj hres
          subst this
          simpa using hp
      | some u =>
          simp only [extract_pages_aux] at hres
          by_cases hcond : u = "" ∨ u ∈ seenPag
          · rw [if_pos hcond] at hres
            have := Option.some.inj hres
            subst this
            simpa using hp
          · rw [if_neg hcond] at hres
            cases hfu : fetch u with
            | none =>
                rw [hfu] at hres
                simp at hres
            | some d =>
                rw [hfu] at hres
                exact ih _ _ _ _ _ (processDoc_article d pages seenPages hp) res hres

theorem aux_nodup (fetch : String → Option Doc) :
    ∀ (n : Nat) (nu : Option String) (seenPag seenPages pages fetched : List String),
      fetched.Nodup → (∀ x ∈ fetched, x ∈ seenPag) →
      pages.Nodup → (∀ x ∈ pages, x ∈ seenPages) →
      ∀ res, extract_pages_aux fetch n nu seenPag seenPages pages fetched = some res →
        res.1.Nodup ∧ res.2.Nodup := by
  intro n
  induction n with
  | zero =>
      intro nu seenPag seenPages pages fetched hfnd hfsub hnd hsub res hres
      simp only [extract_pages_aux] at hres
      have := Option.some.inj hres
      subst this
      exact ⟨hnd, hfnd⟩
  | succ n ih =>
      intro nu seenPag seenPages pages fetched hfnd hfsub hnd hsub res hres
      cases nu with
      | none =>
          simp only [extract_pages_aux] at hres
          have := Option.some.inj hres
          subst this
          exact ⟨hnd, hfnd⟩
      | some u =>
          simp only [extract_pages_aux] at hres
          by_cases hcond : u = "" ∨ u ∈ seenPag
          · rw [if_pos hcond] at hres
            have := Option.some.inj hres
            subst this
            exact ⟨hnd, hfnd⟩
          · rw [if_neg hcond] at hres
            cases hfu : fetch u with
            | none =>
                rw [hfu] at hres
                simp at hres
            | some d =>
                rw [hfu] at hres
                have hu : u ∉ seenPag := fun hin => hcond (Or.inr hin)
                refine ih _ _ _ _ _ ?_ ?_
                  (processDoc_inv d pages seenPages hnd hsub).1
                  (processDoc_inv d pages seenPages hnd hsub).2 res hres
                · rw [List.nodup_append]
                  refine ⟨hfnd, List.nodup_singleton _, ?_⟩
                  intro x hx hx1
                  rw [List.mem_singleton] at hx1
                  subst hx1
                  exact hu (hfsub _ hx)
                · intro x hx
                  rcases List.mem_append.1 hx with hh | hh
                  · exact List.mem_append_left _ (hfsub x hh)
                  · exact List.mem_append_right _ hh

/-- C1 counterexample: a category page holding one subcategory link and
one direct article link.  The code returns the direct article, fetches
only the hub page itself, and never visits the subcategory, whose own
article is absent — the opposite of the claimed hub behavior. -/
theorem c1_counterexample :
    CATEGORY_RE_match subU = true ∧ subU ≠ hubU ∧
    hubDoc.allA.map HtmlAnchor.href = [some subU, some artA] ∧
    fetchC1 hubU = some hubDoc ∧ fetchC1 subU = some subDoc ∧
    extract_pages fetchC1 5 hubU = some ([artA], [hubU]) ∧
    (processDoc subDoc [] []).1 = [artB] ∧
    artA ≠ artB := by
  decide

/-- C1 (amended): the code performs no subcategory traversal.  A
category page with no pagination link gets exactly one fetch and its
article list is the listing extraction of the page itself (so direct hub
articles are included), and every url in any extract_pages result matches
the article pattern — hence never the category pattern, so subcategory
links never enter the list. -/
theorem c1_theorem :
    (∀ (fetch : String → Option Doc) (fuel : Nat) (u : String) (d : Doc),
      fetch u = some d → u ≠ "" → nextHrefOf d = none →
      extract_pages fetch (fuel + 1) u = some ((processDoc d [] []).1, [u])) ∧
    (∀ (fetch : String → Option Doc) (fuel : Nat) (u : String)
      (res : List String × List String),
      extract_pages fetch fuel u = some res →
      ∀ p ∈ res.1, ARTICLE_RE_match p = true ∧ CATEGORY_RE_match p = false) := by
  constructor
  · intro fetch fuel u d hf hu hn
    unfold extract_pages
    cases fuel with
    | zero => simp [extract_pages_aux, hf, hn, hu]
    | succ n => simp [extract_pages_aux, hf, hn, hu]
  · intro fetch fuel u res h p hp
    have ha := aux_article fetch fuel (some u) [] [] [] [] (by simp) res h p hp
    exact ⟨ha, article_not_category p ha⟩

/-- C1 witness: both amended parts evaluated on the hub fixture. -/
theorem c1_witness :
    extract_pages fetchC1 (4 + 1) hubU = some ((processDoc hubDoc [] []).1, [hubU]) ∧
    (ARTICLE_RE_match artA = true ∧ CATEGORY_RE_match artA = false) :=
  ⟨c1_theorem.1 fetchC1 4 hubU hubDoc (by decide) (by decide) rfl,
   c1_theorem.2 fetchC1 5 hubU ([artA], [hubU]) (by decide) artA (by decide)⟩

/-- C10: whenever the pagination walk of a category returns, the trace of
fetched listing urls contains no url twice (each url is marked visited
when taken, and a next-link to a visited or empty url stops the loop),
and the collected article list is globally de-duplicated across all
pagination pages of the category. -/
theorem c10_theorem :
    ∀ (fetch : String → Option Doc) (fuel : Nat) (u : String)
      (pages fetched : List String),
      extract_pages fetch fuel u = some (pages, fetched) →
      fetched.Nodup ∧ pages.Nodup := by
  intro fetch fuel u pages fetched h
  have := aux_nodup fetch fuel (some u) [] [] [] [] (by simp) (by simp) (by simp) (by simp)
    (pages, fetched) h
  exact ⟨this.2, this.1⟩

/-- C10 witness: the two-page paginated fixture category, where the first
article recurs on the second page, still yields a duplicate-free trace
and article list. -/
theorem c10_witness :
    ([catU1, catP2] : List String).Nodup ∧ ([artU1, artU2, artU3] : List String).Nodup :=
  c10_theorem fx 5 catU1 [artU1, artU2, artU3] [catU1, catP2] (by decide)

theorem dedupByUrl_notmem (l : List Anchor) :
    ∀ seen, ∀ a ∈ dedupByUrl l seen, a.url ∉ seen := by
  induction l with
  | nil =>
      intro seen a ha
      simp [dedupByUrl] at ha
  | cons x rest ih =>
      intro seen a ha
      simp only [dedupByUrl] at ha
      split at ha
      · exact ih seen a ha
      · rename_i hx
        rcases List.mem_cons.1 ha with rfl | hmem
        · exact hx
        · intro hs
          exact ih (seen ++ [x.url]) a hmem (List.mem_append_left _ hs)

theorem dedupByUrl_pairwise (l : List Anchor) :
    ∀ seen, List.Pairwise (fun a b => a.url ≠ b.url) (dedupByUrl l seen) := by
  induction l with
  | nil =>
      intro seen
      simp [dedupByUrl]
  | cons x rest ih =>
      intro seen
      simp only [dedupByUrl]
      split
      · exact ih seen
      · refine List.Pairwise.cons ?_ (ih (seen ++ [x.url]))
        intro b hb he
        exact dedupByUrl_notmem rest (seen ++ [x.url]) b hb
          (List.mem_append_right _ (List.mem_singleton.2 he.symm))

theorem anchorsOf_eq (u : String) (hs : List Heading) :
    anchorsOf u hs = (hs.filter (fun h => h.hid ≠ "")).map (fun h =>
      { title := if pyGetText h.frags = "" then "#" ++ h.hid else pyGetText h.frags,
        url := u ++ "#" ++ h.hid }) := by
  induction hs with
  | nil => rfl
  | cons h t ih =>
      simp only [anchorsOf]
      split
      · rename_i hhid
        simp [List.filter_cons, hhid, ih]
      · rename_i hhid
        simp [List.filter_cons, hhid, ih]

/-- C7 counterexample: a heading carrying the id attribute with empty
value is dropped by the code (if not aid: continue), while the claim maps
every id-carrying heading to an anchor. -/
theorem c7_counterexample :
    fetch7 art7 = some doc7 ∧
    doc7.idHeadings = [{ hid := "", frags := ["Intro"] }] ∧
    claimedAnchorsC7 art7 doc7 = [{ title := "Intro", url := art7 ++ "#" }] ∧
    (extract_anchors fetch7 art7).1 = [] ∧
    (extract_anchors fetch7 art7).1 ≠ claimedAnchorsC7 art7 doc7 := by
  decide

/-- C7 (amended): on a fetched article the anchor list is exactly the
headings at levels 2-4 carrying a NON-EMPTY id attribute, in document
order, mapped to url article#id with the collapsed text (or #id when the
text is empty) as title, de-duplicated by url keeping the first
occurrence; consequently no two output entries share a url. -/
theorem c7_theorem :
    ∀ (fetch : String → Option Doc) (u : String) (d : Doc),
      fetch u = some d →
      (extract_anchors fetch u).1
        = dedupByUrl ((d.idHeadings.filter (fun h => h.hid ≠ "")).map (fun h =>
            { title := if pyGetText h.frags = "" then "#" ++ h.hid else pyGetText h.frags,
              url := u ++ "#" ++ h.hid })) [] ∧
      List.Pairwise (fun a b => a.url ≠ b.url) (extract_anchors fetch u).1 := by
  intro fetch u d hf
  have he : (extract_anchors fetch u).1 = dedupByUrl (anchorsOf u d.idHeadings) [] := by
    simp [extract_anchors, hf]
  constructor
  · rw [he, anchorsOf_eq]
  · rw [he]
    exact dedupByUrl_pairwise _ []

/-- C7 witness: the fixture article with a duplicate id, an empty id and
an id-less text, evaluated through the amended equation. -/
theorem c7_witness :
    (extract_anchors fx artU1).1
      = dedupByUrl ((artDoc1.idHeadings.filter (fun h => h.hid ≠ "")).map (fun h =>
          { title := if pyGetText h.frags = "" then "#" ++ h.hid else pyGetText h.frags,
            url := artU1 ++ "#" ++ h.hid })) [] ∧
    List.Pairwise (fun a b => a.url ≠ b.url) (extract_anchors fx artU1).1 :=
  c7_theorem fx artU1 artDoc1 (by decide)

/-- C6: a failed article fetch degrades to no anchors plus the
slug-derived title, and the manifest still lists the article inside its
section with exactly those values; the failure never escapes the article
(the enclosing section is still produced). -/
theorem c6_theorem :
    ∀ (fetch : String → Option Doc) (u : String),
      fetch u = none →
      extract_anchors fetch u = ([], slug_to_title u) ∧
      (∀ (fuel : Nat) (c : String) (sec : SectionEntry) (r : List String × List String),
        buildSection fetch fuel c = some sec →
        extract_pages fetch fuel c = some r →
        u ∈ r.1 →
        ({ title := slug_to_title u, url := u, anchors := [] } : PageEntry) ∈ sec.pages) := by
  intro fetch u hf
  constructor
  · simp [extract_anchors, hf]
  · intro fuel c sec r hsec hr hu
    cases hfc : fetch c with
    | none => simp [buildSection, hfc] at hsec
    | some catDoc =>
        simp only [buildSection, hfc, hr, Option.some.injEq] at hsec
        subst hsec
        refine List.mem_map.2 ⟨u, hu, ?_⟩
        simp [pageOf, extract_anchors, hf]

/-- C6 witness: the fixture article whose fetch fails still appears in
the section of its category with empty anchors and slug title. -/
theorem c6_witness :
    extract_anchors fx artU2 = ([], slug_to_title artU2) ∧
    ({ title := slug_to_title artU2, url := artU2, anchors := [] } : PageEntry) ∈ secFx.pages :=
  ⟨(c6_theorem fx artU2 (by decide)).1,
   (c6_theorem fx artU2 (by decide)).2 5 catU1 secFx ([artU1, artU2, artU3], [catU1, catP2])
     (by decide) (by decide) (by decide)⟩

theorem buildSection_some (fetch : String → Option Doc) (fuel : Nat) (c : String)
    (s : SectionEntry) (h : buildSection fetch fuel c = some s) :
    s.url = c ∧ fetch c ≠ none := by
  cases hfc : fetch c with
  | none => simp [buildSection, hfc] at h
  | some catDoc =>
      cases hep : extract_pages fetch fuel c with
      | none => simp [buildSection, hfc, hep] at h
      | some r =>
          simp only [buildSection, hfc, hep, Option.some.injEq] at h
          subst h
          exact ⟨rfl, by simp [hfc]⟩

/-- C8: failure isolation — the run produces no manifest exactly when the
guides fetch fails; in a produced manifest the sections are the
per-category results in discovery order, a category whose fetch fails
contributes none (no placeholder) while the others are processed
independently, and every produced section comes from a discovered
category whose fetch succeeded. -/
theorem c8_theorem :
    ∀ (fetch : String → Option Doc) (fuel : Nat) (now : String),
      (build_manifest fetch fuel now = none ↔ fetch GUIDES = none) ∧
      (∀ m, build_manifest fetch fuel now = some m →
        ∃ cats, extract_categories fetch = some cats ∧
          m.sections = cats.filterMap (buildSection fetch fuel) ∧
          (∀ c, fetch c = none → buildSection fetch fuel c = none) ∧
          (∀ s ∈ m.sections, s.url ∈ cats ∧ fetch s.url ≠ none)) := by
  intro fetch fuel now
  constructor
  · cases hg : fetch GUIDES with
    | none => simp [build_manifest, extract_categories, hg]
    | some d => simp [build_manifest, extract_categories, hg]
  · intro m hm
    cases hg : extract_categories fetch with
    | none => simp [build_manifest, hg] at hm
    | some cats =>
        simp only [build_manifest, hg, Option.some.injEq] at hm
        subst hm
        refine ⟨cats, rfl, rfl, ?_, ?_⟩
        · intro c hc
          simp [buildSection, hc]
        · intro s hs
          obtain ⟨c, hcmem, hcs⟩ := List.mem_filterMap.1 hs
          obtain ⟨hurl, hfetch⟩ := buildSection_some fetch fuel c s hcs
          rw [hurl]
          exact ⟨hcmem, hfetch⟩

/-- C8 witness: on the fixture site the failing category broken is
dropped while the good one is kept. -/
theorem c8_witness :
    ∃ cats, extract_categories fx = some cats ∧
      mFx.sections = cats.filterMap (buildSection fx 5) ∧
      (∀ c, fx c = none → buildSection fx 5 c = none) ∧
      (∀ s ∈ mFx.sections, s.url ∈ cats ∧ fx s.url ≠ none) :=
  (c8_theorem fx 5 "t0").2 mFx (by decide)

/-- C9: the build is deterministic in its fetched inputs — over the same
fetch results, runs at two different build times produce identical
sections and source, only the version string reflects the clock. -/
theorem c9_theorem :
    ∀ (fetch : String → Option Doc) (fuel : Nat) (now1 now2 : String),
      (build_manifest fetch fuel now1).map Manifest.sections
        = (build_manifest fetch fuel now2).map Manifest.sections ∧
      (build_manifest fetch fuel now1).map Manifest.source
        = (build_manifest fetch fuel now2).map Manifest.source ∧
      (∀ m, build_manifest fetch fuel now1 = some m → m.version = now1) := by
  intro fetch fuel now1 now2
  refine ⟨?_, ?_, ?_⟩
  · cases hg : extract_categories fetch with
    | none => simp [build_manifest, hg]
    | some cats => simp [build_manifest, hg]
  · cases hg : extract_categories fetch with
    | none => simp [build_manifest, hg]
    | some cats => simp [build_manifest, hg]
  · intro m hm
    cases hg : extract_categories fetch with
    | none => simp [build_manifest, hg] at hm
    | some cats =>
        simp only [build_manifest, hg, Option.some.injEq] at hm
        subst hm
        rfl

/-- C9 witness: two fixture runs at times t0 and t1 share their sections,
and the produced version is the build time. -/
theorem c9_witness :
    (build_manifest fx 5 "t0").map Manifest.sections
      = (build_manifest fx 5 "t1").map Manifest.sections ∧
    mFx.version = "t0" :=
  ⟨(c9_theorem fx 5 "t0" "t1").1, (c9_theorem fx 5 "t0" "t1").2.2 mFx (by decide)⟩

end WpSupport
